import Mathlib

/-!
Verification of the webhook/workflow invocation subsystem of the
open-webui-custom-obsidian frontend.

The development shallowly embeds the TypeScript/Svelte sources:

* `src/lib/apis/webhooks/index.ts` — the API client
  (`getWebhookConfig`, `invokeWebhook`, `invokeWebhookWithFiles`,
  `getWebhookEnabledModels`), the response renderer helpers
  (`detectDataType`, `getTableHeaders`, `formatValue`), and the form
  modal logic (`validateForm`, `hasFileFields`, `handleSubmit`, the
  initialization block).
* `src/lib/components/chat/MessageInput/Commands/Webhooks.svelte` —
  the slash-command palette (filtering, selection cursor).
* the workflow discovery dropdown (`loadWorkflows`).

JavaScript runtime values that may flow through these functions are
modelled by `JsVal`; machine behaviour relevant to the claims
(truthiness, `||`, property access, `Array.isArray`, `typeof`,
`Object.keys` insertion order, `Set` insertion order) is modelled
explicitly.
-/

namespace Webhooks

/-- A JavaScript/JSON runtime value as it can appear in the webhook flow:
`undefined`, `null`, booleans, numbers (modelled as integers — no claim
depends on fractional values or NaN), strings, arrays and objects.
Objects carry their fields in insertion order. -/
inductive JsVal where
  | undefined : JsVal
  | null : JsVal
  | bool : Bool → JsVal
  | num : Int → JsVal
  | str : String → JsVal
  | arr : List JsVal → JsVal
  | obj : List (String × JsVal) → JsVal

/-- JavaScript truthiness: `undefined`, `null`, `false`, `0` and `""` are
falsy; every array and object (including empty ones) is truthy. -/
def truthy : JsVal → Bool
  | .undefined => false
  | .null => false
  | .bool b => b
  | .num n => n != 0
  | .str s => s != ""
  | .arr _ => true
  | .obj _ => true

/-- JavaScript property access `v.k` for the values that reach the
`catch` handlers: on an object, the named field (or `undefined` when
absent); on anything else, `undefined`. -/
def getField (v : JsVal) (k : String) : JsVal :=
  match v with
  | .obj fields =>
      match fields.find? (fun p => p.1 == k) with
      | some p => p.2
      | none => .undefined
  | _ => .undefined

/-- JavaScript `a || b`: `a` when truthy, otherwise `b`. -/
def jsOr (a b : JsVal) : JsVal :=
  if truthy a then a else b

/-- `Array.isArray`. -/
def isArray : JsVal → Bool
  | .arr _ => true
  | _ => false

/-- `v === null`. -/
def isNull : JsVal → Bool
  | .null => true
  | _ => false

/-- JavaScript `typeof v === 'object'` (true for `null`, arrays and
objects). -/
def jsTypeofObject : JsVal → Bool
  | .null => true
  | .arr _ => true
  | .obj _ => true
  | _ => false

/-- `v.length` of an array value (`0` for non-arrays; only applied to
arrays below). -/
def arrLen : JsVal → Nat
  | .arr xs => xs.length
  | _ => 0

/-- `v[0]` of an array value (`undefined` when empty or not an array). -/
def arrGet0 : JsVal → JsVal
  | .arr (x :: _) => x
  | _ => .undefined

/-- The outcome of one `fetch` round trip as observed by the promise
chain in the API client:
* `success body` — `res.ok` held and `res.json()` parsed to `body`;
* `httpError body` — `!res.ok`, so `await res.json()` was thrown and the
  `catch` handler received the parsed JSON `body`;
* `thrown message` — `fetch` itself (or body parsing) rejected with an
  `Error`; such an error object has a `message` string but no `detail`
  property. -/
inductive FetchOutcome where
  | success : JsVal → FetchOutcome
  | httpError : JsVal → FetchOutcome
  | thrown : String → FetchOutcome

/-- `getWebhookConfig` (src/lib/apis/webhooks/index.ts, lines 54–80) as a
function of the fetch outcome.  The promise chain computes a pair
(`res`, `error`): on success `res` is the body and `error` stays `null`;
in the `catch` handler `error := err.detail` and `res := null`.  After
the chain, `if (error) throw error; return res`. -/
def getWebhookConfig (outcome : FetchOutcome) : Except JsVal JsVal :=
  let p : JsVal × JsVal :=
    match outcome with
    | .success body => (body, .null)
    | .httpError err => (.null, getField err "detail")
    | .thrown _ => (.null, .undefined)
  if truthy p.2 then .error p.2 else .ok p.1

/-- `invokeWebhook` (lines 85–121): identical chain except that the
`catch` handler sets `error := err.detail || err.message || 'Unknown
error'`.  For a thrown `Error`, `err.detail` is `undefined` and
`err.message` is the error's message string. -/
def invokeWebhook (outcome : FetchOutcome) : Except JsVal JsVal :=
  let p : JsVal × JsVal :=
    match outcome with
    | .success body => (body, .null)
    | .httpError err =>
        (.null, jsOr (getField err "detail")
                  (jsOr (getField err "message") (.str "Unknown error")))
    | .thrown msg =>
        (.null, jsOr (.str msg) (.str "Unknown error"))
  if truthy p.2 then .error p.2 else .ok p.1

/-- `invokeWebhookWithFiles` (lines 126–170): the same error handling as
`invokeWebhook` (the multipart encoding does not affect the
outcome-to-result mapping modelled here). -/
def invokeWebhookWithFiles (outcome : FetchOutcome) : Except JsVal JsVal :=
  invokeWebhook outcome

/-- `getWebhookEnabledModels` (lines 175–201): the `catch` handler sets
`error := err.detail` and returns `[]` (so on a swallowed failure `res`
is the empty array), then `if (error) throw error; return res`. -/
def getWebhookEnabledModels (outcome : FetchOutcome) : Except JsVal JsVal :=
  let p : JsVal × JsVal :=
    match outcome with
    | .success body => (body, .null)
    | .httpError err => (.arr [], getField err "detail")
    | .thrown _ => (.arr [], .undefined)
  if truthy p.2 then .error p.2 else .ok p.1

/-! ### Response renderer (WebhookResponseDisplay component)

`detectDataType`, `getTableHeaders` and `formatValue` from the response
display component. -/

/-- The renderer's classification of the `data` payload. -/
inductive DataType where
  | table
  | keyValue
  | list
  | raw
  | empty
deriving DecidableEq

/-- `detectDataType`: `if (!data) return 'empty'`; then a non-empty
array is `table` when its first element satisfies
`typeof data[0] === 'object' && data[0] !== null`, otherwise `list`;
then `typeof data === 'object' && data !== null && !Array.isArray(data)`
is `key-value`; everything else is `raw`. -/
def detectDataType (data : JsVal) : DataType :=
  if !truthy data then .empty
  else if isArray data && decide (0 < arrLen data) then
    (if jsTypeofObject (arrGet0 data) && !isNull (arrGet0 data) then .table else .list)
  else if jsTypeofObject data && !isNull data && !isArray data then .keyValue
  else .raw

/-- `Object.keys`: for an object, its field names in insertion order (a
JavaScript object's keys are unique by construction); for a string, the
index keys `"0"`, `"1"`, …; for the remaining primitives, the empty
list.  (`Object.keys(null)` would throw in JavaScript; the table claim
below is scoped to object rows, matching its statement.) -/
def objKeys : JsVal → List String
  | .obj fields => fields.map Prod.fst
  | .str s => (List.range s.length).map toString
  | _ => []

/-- `v` is an object (the row shape the table claim quantifies over). -/
def isObj : JsVal → Bool
  | .obj _ => true
  | _ => false

/-- `Set.prototype.add` on a set represented as its insertion-ordered
element list: appends the key when it is not yet present. -/
def addKey (acc : List String) (k : String) : List String :=
  if acc.contains k then acc else acc ++ [k]

/-- `getTableHeaders`: `if (!data || data.length === 0) return []`, then
every row's `Object.keys` are added to a `Set` in row order, and
`Array.from` returns the set in insertion order. -/
def getTableHeaders (data : List JsVal) : List String :=
  if data.length == 0 then []
  else data.foldl (fun acc item => (objKeys item).foldl addKey acc) []

/-- The column set as the spec words it: the union of the per-row key
lists, keeping each key at its first occurrence (written independently
of `getTableHeaders`, to be compared with it). -/
def firstSeenUnion (keyLists : List (List String)) : List String :=
  keyLists.foldl (fun acc ks => acc ++ ks.filter (fun k => !acc.contains k)) []

mutual
/-- `JSON.stringify` (single-line form, as used by `formatValue` for
nested objects and arrays).  String escaping is not modelled — no claim
depends on it. -/
def jsonStringify : JsVal → String
  | .undefined => "null"
  | .null => "null"
  | .bool b => if b then "true" else "false"
  | .num n => toString n
  | .str s => "\"" ++ s ++ "\""
  | .arr xs => "[" ++ String.intercalate "," (stringifyList xs) ++ "]"
  | .obj fs => "\x7b" ++ String.intercalate "," (stringifyFields fs) ++ "\x7d"

def stringifyList : List JsVal → List String
  | [] => []
  | x :: xs => jsonStringify x :: stringifyList xs

def stringifyFields : List (String × JsVal) → List String
  | [] => []
  | (k, v) :: fs => ("\"" ++ k ++ "\":" ++ jsonStringify v) :: stringifyFields fs
end

/-- `formatValue`: `null`/`undefined` render as the placeholder dash,
booleans as check/cross glyphs, objects and arrays as their JSON string,
and everything else via `String(value)`. -/
def formatValue : JsVal → String
  | .undefined => "-"
  | .null => "-"
  | .bool b => if b then "✓" else "✗"
  | .arr xs => jsonStringify (.arr xs)
  | .obj fs => jsonStringify (.obj fs)
  | .num n => toString n
  | .str s => s

/-! ### Form modal (WebhookFormModal component)

The field schema type, the initialization block, `validateForm`,
`hasFileFields` and `handleSubmit`. -/

/-- The `type` enumeration of `WebhookFormField`. -/
inductive FieldType where
  | text
  | number
  | date
  | select
  | textarea
  | file
deriving DecidableEq

/-- `WebhookFormField` from `src/lib/apis/webhooks/index.ts`. -/
structure WebhookFormField where
  name : String
  label : String
  type : FieldType
  required : Bool
  placeholder : Option String := none
  options : List String := []
  default : Option String := none
  accept : Option String := none
  multiple : Bool := false
deriving DecidableEq

/-- A JavaScript string-keyed record, kept in key insertion order
(models `Record<string, V>` objects such as `formData`, `fileData` and
`errors`). -/
abbrev JsRecord (V : Type) := List (String × V)

/-- `m[k]` as an optional lookup. -/
def getKey? {V : Type} (m : JsRecord V) (k : String) : Option V :=
  (m.find? (fun p => p.1 == k)).map Prod.snd

/-- `m[k] = v`: updating an existing key keeps its position; a new key
is appended (JavaScript object key insertion order). -/
def setKey {V : Type} (m : JsRecord V) (k : String) (v : V) : JsRecord V :=
  if m.any (fun p => p.1 == k) then
    m.map (fun p => if p.1 == k then (k, v) else p)
  else
    m ++ [(k, v)]

/-- JavaScript `String.prototype.trim` on the whitespace characters
recognised by `Char.isWhitespace` (all the whitespace that appears in
form input). -/
def jsTrim (s : String) : String :=
  ⟨((s.data.dropWhile Char.isWhitespace).reverse.dropWhile Char.isWhitespace).reverse⟩

/-- The modal-local transient state: `formData` (text-like field
values), `fileData` (selected files per file field, each file given by
its name) and `errors` (the validation error map). -/
structure FormState where
  formData : JsRecord String
  fileData : JsRecord (List String)
  errors : JsRecord String
deriving DecidableEq

/-- One iteration of the initialization loop: a file field seeds
`fileData[field.name] = []`, any other field seeds
`formData[field.name] = field.default || ''`. -/
def resetStep (st : FormState) (field : WebhookFormField) : FormState :=
  if field.type == .file then
    { st with fileData := setKey st.fileData field.name [] }
  else
    { st with formData := setKey st.formData field.name (field.default.getD "") }

/-- The initialization block run whenever `show && formFields` holds:
`formData = {}; fileData = {}; errors = {}` and then the `resetStep`
loop over the schema in order.  The prior state is passed to make
explicit that the reset ignores it. -/
def resetOnShow (_prior : FormState) (formFields : List WebhookFormField) : FormState :=
  formFields.foldl resetStep { formData := [], fileData := [], errors := [] }

/-- The failure test `validateForm` applies to one required field: a
file field fails when `!fileData[field.name] ||
fileData[field.name].length === 0`; any other field fails when
`!formData[field.name]?.trim()`. -/
def fieldFails (field : WebhookFormField) (formData : JsRecord String)
    (fileData : JsRecord (List String)) : Bool :=
  if field.type == .file then
    match getKey? fileData field.name with
    | none => true
    | some fs => fs.isEmpty
  else
    match getKey? formData field.name with
    | none => true
    | some v => jsTrim v == ""

/-- One iteration of the validation loop: a failing required field
receives the entry `` `${field.label} is required` `` under its name;
every other field leaves the error map unchanged. -/
def validateStep (formData : JsRecord String) (fileData : JsRecord (List String))
    (errs : JsRecord String) (field : WebhookFormField) : JsRecord String :=
  if field.required && fieldFails field formData fileData then
    setKey errs field.name (field.label ++ " is required")
  else errs

/-- `validateForm`: starts from `errors = {}` and walks every field of
the schema with `validateStep`.  The walk never stops early, so the
resulting error map is complete. -/
def validateForm (formFields : List WebhookFormField) (formData : JsRecord String)
    (fileData : JsRecord (List String)) : JsRecord String :=
  formFields.foldl (validateStep formData fileData) []

/-- `$: hasFileFields = formFields.some((f) => f.type === 'file')`. -/
def hasFileFields (formFields : List WebhookFormField) : Bool :=
  formFields.any (fun f => f.type == .file)

/-- The file aggregation in `handleSubmit`:
`for (const fieldName in fileData) allFiles.push(...fileData[fieldName])`
— one ordered list, concatenating the per-field lists in `fileData` key
insertion order. -/
def collectAllFiles (fileData : JsRecord (List String)) : List String :=
  (fileData.map Prod.snd).flatten

/-- What one `handleSubmit` run does before any response handling:
either it is blocked by validation (no network call), or it issues
exactly one call on the multipart path or the JSON path. -/
inductive SubmitAction where
  | blocked : JsRecord String → SubmitAction
  | callWithFiles : JsRecord String → List String → SubmitAction
  | callJson : JsRecord String → SubmitAction
deriving DecidableEq

/-- `handleSubmit` up to the network call: `if (!validateForm())
return;` then `hasFileFields` selects `invokeWebhookWithFiles` with the
aggregated file list, otherwise `invokeWebhook`.  (`validateForm`
returns `isValid`, which is `true` exactly when the error map it built
stays empty.) -/
def handleSubmit (formFields : List WebhookFormField) (formData : JsRecord String)
    (fileData : JsRecord (List String)) : SubmitAction :=
  let errs := validateForm formFields formData fileData
  if !errs.isEmpty then .blocked errs
  else if hasFileFields formFields then .callWithFiles formData (collectAllFiles fileData)
  else .callJson formData

/-- The number of network calls a submit action issues. -/
def networkCallCount : SubmitAction → Nat
  | .blocked _ => 0
  | .callWithFiles _ _ => 1
  | .callJson _ => 1

/-! ### Slash-command palette (Commands/Webhooks.svelte)

The filter over webhook-enabled models and the selection cursor. -/

/-- `WebhookModel` from `src/lib/apis/webhooks/index.ts`. -/
structure WebhookModel where
  id : String
  name : String
  slash_command : Option String := none
  form_title : Option String := none
deriving DecidableEq

/-- `sub.isPrefixOf`-based substring test: JavaScript
`s.includes(sub)`. -/
def charListIncludes (sub : List Char) : List Char → Bool
  | [] => sub.isEmpty
  | c :: rest => sub.isPrefixOf (c :: rest) || charListIncludes sub rest

/-- JavaScript `s.includes(sub)`. -/
def strIncludes (s sub : String) : Bool :=
  charListIncludes sub.data s.data

/-- JavaScript `toLowerCase` (ASCII case mapping — the locale-dependent
part of `toLowerCase` does not affect any claim). -/
def jsToLower (s : String) : String :=
  ⟨s.data.map Char.toLower⟩

/-- The palette's filter predicate: `const command =
w.slash_command?.toLowerCase() || ''; const name = w.name?.toLowerCase()
|| ''; const q = query.toLowerCase(); return command.includes(q) ||
name.includes(q);`. -/
def paletteMatch (query : String) (w : WebhookModel) : Bool :=
  let command := jsToLower (w.slash_command.getD "")
  let name := jsToLower w.name
  let q := jsToLower query
  strIncludes command q || strIncludes name q

/-- Code-point comparison standing in for `localeCompare` (the claims
depend only on the sorted list's length and membership, which any total
comparator preserves). -/
def strLe (a b : String) : Bool :=
  go a.data b.data
where
  go : List Char → List Char → Bool
    | [], _ => true
    | _ :: _, [] => false
    | x :: xs, y :: ys =>
      if x.toNat < y.toNat then true
      else if y.toNat < x.toNat then false
      else go xs ys

/-- Insert into a sorted list (stable insertion sort, matching the
stable `Array.prototype.sort`). -/
def insertSorted {α : Type} (le : α → α → Bool) (x : α) : List α → List α
  | [] => [x]
  | y :: ys => if le x y then x :: y :: ys else y :: insertSorted le x ys

/-- Stable sort by a boolean comparator. -/
def sortBy {α : Type} (le : α → α → Bool) : List α → List α
  | [] => []
  | x :: xs => insertSorted le x (sortBy le xs)

/-- `$: filteredItems = webhooks.filter(...).sort((a, b) => (a.name ||
'').localeCompare(b.name || ''))`. -/
def filteredItems (webhooks : List WebhookModel) (query : String) : List WebhookModel :=
  sortBy (fun a b => strLe a.name b.name) (webhooks.filter (paletteMatch query))

/-- The palette's mutable state: the bound `query` prop and
`selectedIdx` (an integer — `Math.min(selectedIdx + 1,
filteredItems.length - 1)` can produce `-1`). -/
structure PaletteState where
  query : String
  selectedIdx : Int
deriving DecidableEq

/-- The state on mount: `query = ''`, `selectedIdx = 0`. -/
def paletteInit : PaletteState :=
  { query := "", selectedIdx := 0 }

/-- The discrete palette events: the filter text changing (the parent
rebinds `query`), and the exported `selectUp` / `selectDown` actions. -/
inductive PaletteEvent where
  | setQuery : String → PaletteEvent
  | selectUp : PaletteEvent
  | selectDown : PaletteEvent
deriving DecidableEq

/-- One palette step.  A query change re-runs the reactive statement
`$: if (query) { selectedIdx = 0; }` — the cursor is reset only when the
new query is truthy (non-empty).  `selectUp` is
`Math.max(0, selectedIdx - 1)`; `selectDown` is
`Math.min(selectedIdx + 1, filteredItems.length - 1)`. -/
def paletteStep (webhooks : List WebhookModel) (st : PaletteState) :
    PaletteEvent → PaletteState
  | .setQuery q =>
      { query := q, selectedIdx := if q == "" then st.selectedIdx else 0 }
  | .selectUp =>
      { st with selectedIdx := max 0 (st.selectedIdx - 1) }
  | .selectDown =>
      { st with
        selectedIdx :=
          min (st.selectedIdx + 1)
            (((filteredItems webhooks st.query).length : Int) - 1) }

/-- Run the palette from its mount state over a list of events. -/
def paletteRun (webhooks : List WebhookModel) (events : List PaletteEvent) : PaletteState :=
  events.foldl (paletteStep webhooks) paletteInit

/-! ### Workflow discovery menu (dropdown component)

`loadWorkflows`, triggered by `$: if (show) loadWorkflows()`. -/

/-- The menu's state across its mounted lifetime: the cached `workflows`
list and, for the temporal claim, the number of
`getWebhookEnabledModels` calls issued so far. -/
structure MenuState where
  workflows : List WebhookModel
  calls : Nat
deriving DecidableEq

/-- The menu state on mount: no workflows cached, no call issued. -/
def menuInit : MenuState :=
  { workflows := [], calls := 0 }

/-- One open transition (`show` becoming true runs `loadWorkflows`):
`if (workflows.length > 0) return;` then `workflows = await
getWebhookEnabledModels(...)`, with the `catch` setting
`workflows = []`.  The environment `fetchResult n` gives the settled
result of the `(n+1)`-th listing call (resolved model list, or thrown
value). -/
def openMenu (fetchResult : Nat → Except JsVal (List WebhookModel))
    (st : MenuState) : MenuState :=
  if st.workflows.length > 0 then st
  else
    match fetchResult st.calls with
    | .ok ws => { workflows := ws, calls := st.calls + 1 }
    | .error _ => { workflows := [], calls := st.calls + 1 }

/-- A sequence of `n` open transitions. -/
def openMenuN (fetchResult : Nat → Except JsVal (List WebhookModel)) :
    Nat → MenuState → MenuState
  | 0, st => st
  | n + 1, st => openMenuN fetchResult n (openMenu fetchResult st)

/-- An environment in which every listing call resolves with the empty
list (e.g. no webhook-enabled model is configured yet). -/
def alwaysEmptyFetch : Nat → Except JsVal (List WebhookModel) :=
  fun _ => .ok []

/-- An environment in which every listing call resolves with one
webhook-enabled model. -/
def oneModelFetch : Nat → Except JsVal (List WebhookModel) :=
  fun _ => .ok [{ id := "m1", name := "Model One" }]

/-- Two concrete webhook-enabled models for the palette theorems (both
match the filter text `"a"`). -/
def demoWebhooks : List WebhookModel :=
  [{ id := "m1", name := "alpha", slash_command := some "/alpha" },
   { id := "m2", name := "beta" }]

/-! ## Theorems -/

/-- C1 (amended): on a transport-level failure `getWebhookEnabledModels`
resolves with the empty list; on a non-success HTTP status it resolves
with the empty list only when the error body's `detail` is absent or
falsy — when the body carries a truthy `detail`, that detail is thrown
to the caller. -/
theorem getWebhookEnabledModels_failure_behavior (err : JsVal) (msg : String) :
    getWebhookEnabledModels (.thrown msg) = .ok (.arr []) ∧
    getWebhookEnabledModels (.httpError err) =
      (if truthy (getField err "detail") then .error (getField err "detail")
       else .ok (.arr [])) := by
  refine ⟨rfl, ?_⟩
  unfold getWebhookEnabledModels
  by_cases h : truthy (getField err "detail") <;> simp [h]

/-- C1 counterexample: a 500 response whose body is
`{"detail": "Internal Server Error"}` makes `getWebhookEnabledModels`
throw the detail — it does not return the empty list. -/
theorem getWebhookEnabledModels_throws_on_detail :
    getWebhookEnabledModels (.httpError (.obj [("detail", .str "Internal Server Error")])) =
      .error (.str "Internal Server Error") ∧
    getWebhookEnabledModels (.httpError (.obj [("detail", .str "Internal Server Error")])) ≠
      .ok (.arr []) := by
  refine ⟨rfl, ?_⟩
  intro h
  rw [show getWebhookEnabledModels
      (.httpError (.obj [("detail", .str "Internal Server Error")])) =
      Except.error (JsVal.str "Internal Server Error") from rfl] at h
  exact Except.noConfusion h

/-- C2 (amended): when the non-success response body carries a truthy
`detail`, `getWebhookConfig` rejects with exactly that detail value — it
never resolves with a substitute configuration in that case. -/
theorem getWebhookConfig_propagates_detail (err : JsVal)
    (h : truthy (getField err "detail") = true) :
    getWebhookConfig (.httpError err) = .error (getField err "detail") := by
  unfold getWebhookConfig
  simp [h]

/-- Witness for `getWebhookConfig_propagates_detail` at a concrete
404-style body. -/
theorem getWebhookConfig_propagates_detail_witness :
    truthy (getField (JsVal.obj [("detail", JsVal.str "Model not found")]) "detail") = true ∧
    getWebhookConfig (.httpError (.obj [("detail", .str "Model not found")])) =
      .error (.str "Model not found") := by
  exact ⟨rfl, getWebhookConfig_propagates_detail (.obj [("detail", .str "Model not found")]) rfl⟩

/-- C2 counterexample: on a non-success response whose body has no
`detail` field, and on a transport error, `getWebhookConfig` does not
fail — it resolves with `null`. -/
theorem getWebhookConfig_nulls_without_detail :
    getWebhookConfig (.httpError (.obj [("error", .str "oops")])) = .ok .null ∧
    getWebhookConfig (.thrown "network down") = .ok .null := by
  exact ⟨rfl, rfl⟩

/-- C3 (amended): the classification rules of `detectDataType`, with the
corrected first rule: every falsy payload — absent/`null` but also `""`,
`0` and `false` — is `empty`; a non-empty array whose first element is a
non-null object value is `table`, otherwise `list`; a (truthy) object is
`key-value`; any other truthy non-array non-object value is `raw`, and
the empty array is `raw`. -/
theorem detectDataType_cases (data : JsVal) :
    (truthy data = false → detectDataType data = .empty) ∧
    (∀ x xs, data = .arr (x :: xs) →
      (jsTypeofObject x && !isNull x) = true → detectDataType data = .table) ∧
    (∀ x xs, data = .arr (x :: xs) →
      (jsTypeofObject x && !isNull x) = false → detectDataType data = .list) ∧
    (∀ fs, data = .obj fs → detectDataType data = .keyValue) ∧
    (truthy data = true → isArray data = false → jsTypeofObject data = false →
      detectDataType data = .raw) ∧
    detectDataType (.arr []) = .raw := by
  refine ⟨?_, ?_, ?_, ?_, ?_, rfl⟩
  · intro h
    simp [detectDataType, h]
  · intro x xs hdat hobj
    subst hdat
    simp [detectDataType, truthy, isArray, arrLen, arrGet0, hobj]
  · intro x xs hdat hobj
    subst hdat
    simp [detectDataType, truthy, isArray, arrLen, arrGet0, hobj]
  · intro fs hdat
    subst hdat
    simp [detectDataType, truthy, isArray, isNull, jsTypeofObject]
  · intro ht ha ho
    simp [detectDataType, ht, ha, ho]

/-- Witness for `detectDataType_cases` at the shapes named by the spec:
an array of objects, a plain object, a scalar array, a non-empty string
and `null`. -/
theorem detectDataType_cases_witness :
    detectDataType (.arr [.obj [("a", .num 1)], .obj [("a", .num 2)]]) = .table ∧
    detectDataType (.obj [("a", .num 1), ("b", .num 2)]) = .keyValue ∧
    detectDataType (.arr [.num 1, .num 2, .num 3]) = .list ∧
    detectDataType (.str "hello") = .raw ∧
    detectDataType .null = .empty := by
  refine ⟨?_, ?_, ?_, ?_, ?_⟩
  · exact (detectDataType_cases _).2.1 _ _ rfl rfl
  · exact (detectDataType_cases _).2.2.2.1 _ rfl
  · exact (detectDataType_cases _).2.2.1 _ _ rfl rfl
  · exact (detectDataType_cases _).2.2.2.2.1 rfl rfl rfl
  · exact (detectDataType_cases _).1 rfl

/-- C3 counterexample: the falsy primitives `""`, `0` and `false` are
classified `empty`, not `raw` as the claim states. -/
theorem detectDataType_falsy_scalars :
    detectDataType (.str "") = .empty ∧
    detectDataType (.num 0) = .empty ∧
    detectDataType (.bool false) = .empty ∧
    DataType.empty ≠ DataType.raw := by
  exact ⟨rfl, rfl, rfl, by decide⟩

/-- C8: `invokeWebhook` rejects with the server `detail` when truthy,
else with the error's `message` when truthy, else with the generic
`"Unknown error"`; a transport error rejects with its message; and the
concrete 400 body `{"detail": "bad input"}` rejects with
`"bad input"`. -/
theorem invokeWebhook_error_priority (err : JsVal) (msg : String) :
    (truthy (getField err "detail") = true →
      invokeWebhook (.httpError err) = .error (getField err "detail")) ∧
    (truthy (getField err "detail") = false → truthy (getField err "message") = true →
      invokeWebhook (.httpError err) = .error (getField err "message")) ∧
    (truthy (getField err "detail") = false → truthy (getField err "message") = false →
      invokeWebhook (.httpError err) = .error (.str "Unknown error")) ∧
    (msg ≠ "" → invokeWebhook (.thrown msg) = .error (.str msg)) ∧
    invokeWebhook (.httpError (.obj [("detail", .str "bad input")])) = .error (.str "bad input") := by
  refine ⟨?_, ?_, ?_, ?_, rfl⟩
  · intro h
    have ht : truthy (jsOr (getField err "detail")
        (jsOr (getField err "message") (.str "Unknown error"))) = true := by
      simp [jsOr, h]
    have he : jsOr (getField err "detail")
        (jsOr (getField err "message") (.str "Unknown error")) = getField err "detail" := by
      simp [jsOr, h]
    simp [invokeWebhook, ht, he, h]
  · intro h1 h2
    have he : jsOr (getField err "detail")
        (jsOr (getField err "message") (.str "Unknown error")) = getField err "message" := by
      simp [jsOr, h1, h2]
    simp [invokeWebhook, he, h2]
  · intro h1 h2
    have he : jsOr (getField err "detail")
        (jsOr (getField err "message") (.str "Unknown error")) = .str "Unknown error" := by
      simp [jsOr, h1, h2]
    simp [invokeWebhook, he, truthy]
  · intro h
    have ht : truthy (JsVal.str msg) = true := by
      simpa [truthy] using h
    simp [invokeWebhook, jsOr, ht]

/-- Witness for `invokeWebhook_error_priority`, exercising all three
priority levels and the transport case at concrete inputs. -/
theorem invokeWebhook_error_priority_witness :
    invokeWebhook (.httpError (.obj [("detail", .str "bad input")])) = .error (.str "bad input") ∧
    invokeWebhook (.httpError (.obj [("message", .str "boom")])) = .error (.str "boom") ∧
    invokeWebhook (.httpError (.obj [])) = .error (.str "Unknown error") ∧
    invokeWebhook (.thrown "fetch failed") = .error (.str "fetch failed") := by
  refine ⟨?_, ?_, ?_, ?_⟩
  · exact (invokeWebhook_error_priority (.obj [("detail", .str "bad input")]) "x").2.2.2.2
  · exact (invokeWebhook_error_priority (.obj [("message", .str "boom")]) "x").2.1 rfl rfl
  · exact (invokeWebhook_error_priority (.obj []) "x").2.2.1 rfl rfl
  · exact (invokeWebhook_error_priority (.obj []) "fetch failed").2.2.2.1 (by decide)

/-- Once the menu state holds a non-empty workflow list, an open
transition does nothing (no fetch). -/
theorem openMenu_fixed_of_nonempty (env : Nat → Except JsVal (List WebhookModel))
    (st : MenuState) (h : st.workflows ≠ []) : openMenu env st = st := by
  unfold openMenu
  simp [List.length_pos.mpr h]

/-- Once the menu state holds a non-empty workflow list, any number of
open transitions does nothing. -/
theorem openMenuN_fixed_of_nonempty (env : Nat → Except JsVal (List WebhookModel))
    (n : Nat) (st : MenuState) (h : st.workflows ≠ []) :
    openMenuN env n st = st := by
  induction n generalizing st with
  | zero => rfl
  | succ n ih =>
    show openMenuN env n (openMenu env st) = st
    rw [openMenu_fixed_of_nonempty env st h]
    exact ih st h

/-- C10 (amended): `loadWorkflows` skips the fetch exactly when a
previous fetch produced a non-empty list: with a non-empty cache an open
issues no call; from an empty cache an open issues one call, and when
that call returns a non-empty list every later open during the mounted
lifetime reuses it (no further call, `calls` stays at one more). -/
theorem loadWorkflows_fetch_once_when_nonempty
    (env : Nat → Except JsVal (List WebhookModel))
    (st : MenuState) (ws : List WebhookModel) :
    (st.workflows ≠ [] → openMenu env st = st) ∧
    (st.workflows = [] → env st.calls = .ok ws → ws ≠ [] →
      openMenu env st = { workflows := ws, calls := st.calls + 1 }) ∧
    (∀ n, st.workflows = [] → env st.calls = .ok ws → ws ≠ [] →
      openMenuN env n (openMenu env st) = openMenu env st) := by
  refine ⟨openMenu_fixed_of_nonempty env st, ?_, ?_⟩
  · intro h1 h2 _h3
    unfold openMenu
    simp [h1, h2]
  · intro n h1 h2 h3
    have hopen : openMenu env st = { workflows := ws, calls := st.calls + 1 } := by
      unfold openMenu
      simp [h1, h2]
    rw [hopen]
    exact openMenuN_fixed_of_nonempty env n _ h3

/-- Witness for `loadWorkflows_fetch_once_when_nonempty`: with a fetch
that returns one model, the first open caches it and five further opens
change nothing. -/
theorem loadWorkflows_fetch_once_witness :
    openMenu oneModelFetch menuInit =
      { workflows := [{ id := "m1", name := "Model One" }], calls := 1 } ∧
    openMenuN oneModelFetch 5 (openMenu oneModelFetch menuInit) =
      openMenu oneModelFetch menuInit := by
  refine ⟨?_, ?_⟩
  · exact (loadWorkflows_fetch_once_when_nonempty oneModelFetch menuInit
      [{ id := "m1", name := "Model One" }]).2.1 rfl rfl (by simp)
  · exact (loadWorkflows_fetch_once_when_nonempty oneModelFetch menuInit
      [{ id := "m1", name := "Model One" }]).2.2 5 rfl rfl (by simp)

/-- C10 counterexample: when the first fetch resolves with the empty
list, a second open calls the listing endpoint again — after two opens
two calls have been issued, not one. -/
theorem loadWorkflows_refetches_after_empty :
    (openMenuN alwaysEmptyFetch 2 menuInit).calls = 2 ∧ (2 : Nat) ≠ 1 := by
  exact ⟨rfl, by decide⟩

/-! ### Record (string-keyed map) helper lemmas -/

/-- `setKey` walks past a head whose key differs. -/
theorem setKey_cons_of_ne {V : Type} (p : String × V) (m : JsRecord V) (k : String) (v : V)
    (hp : (p.1 == k) = false) : setKey (p :: m) k v = p :: setKey m k v := by
  have hp' : ¬p.1 = k := by simpa using hp
  unfold setKey
  cases hm : m.any (fun q => q.1 == k) <;> simp [List.any_cons, hp, hm, hp']

/-- The pair just written by `setKey` is in the record. -/
theorem mem_setKey_self {V : Type} (m : JsRecord V) (k : String) (v : V) :
    (k, v) ∈ setKey m k v := by
  unfold setKey
  cases hm : m.any (fun q => q.1 == k)
  · simp [hm]
  · simp only [hm, if_true]
    rcases List.any_eq_true.mp hm with ⟨p, hp, hpk⟩
    refine List.mem_map.mpr ⟨p, hp, ?_⟩
    simp [hpk]

/-- Writing another key preserves membership of a pair. -/
theorem mem_setKey_of_ne {V : Type} {m : JsRecord V} {k₁ : String} {v₁ : V}
    (k₂ : String) (v₂ : V) (hmem : (k₁, v₁) ∈ m) (hne : k₁ ≠ k₂) :
    (k₁, v₁) ∈ setKey m k₂ v₂ := by
  unfold setKey
  cases hm : m.any (fun q => q.1 == k₂)
  · exact List.mem_append_left _ hmem
  · refine List.mem_map.mpr ⟨(k₁, v₁), hmem, ?_⟩
    simp [hne]

/-- `find?` by the key just written yields the written pair. -/
theorem find?_setKey_self {V : Type} (m : JsRecord V) (k : String) (v : V) :
    (setKey m k v).find? (fun q => q.1 == k) = some (k, v) := by
  induction m with
  | nil =>
    show List.find? (fun q => q.1 == k) [(k, v)] = some (k, v)
    simp [List.find?_cons]
  | cons p m ih =>
    cases hp : (p.1 == k)
    · rw [setKey_cons_of_ne p m k v hp, List.find?_cons]
      rw [hp]
      exact ih
    · have hp' : p.1 = k := by simpa using hp
      have hany : ((p :: m).any fun q => q.1 == k) = true := by
        simp [List.any_cons, hp']
      unfold setKey
      simp [hany, List.find?_cons, hp']

/-- Looking up the key just written yields the written value. -/
theorem getKey?_setKey_self {V : Type} (m : JsRecord V) (k : String) (v : V) :
    getKey? (setKey m k v) k = some v := by
  unfold getKey?
  rw [find?_setKey_self]
  rfl

/-- The `setKey` update function preserves every key, so `find?` by a
different key is unchanged under the map. -/
theorem find?_map_updateKey {V : Type} (m : JsRecord V) (k k₂ : String) (v₂ : V)
    (hne : (k₂ == k) = false) :
    (m.map (fun q => if q.1 == k₂ then (k₂, v₂) else q)).find? (fun q => q.1 == k) =
      m.find? (fun q => q.1 == k) := by
  have hne' : ¬k₂ = k := by simpa using hne
  induction m with
  | nil => rfl
  | cons p m ih =>
    rw [List.map_cons, List.find?_cons, List.find?_cons]
    by_cases hp : p.1 = k₂
    · have h₂ : (p.1 == k) = false := by simp [hp, hne']
      have hpb : (p.1 == k₂) = true := by simpa using hp
      simp only [hpb, if_true, h₂]
      have h₁ : (((k₂, v₂) : String × V).1 == k) = false := by simpa using hne'
      rw [h₁]
      exact ih
    · have hpb : (p.1 == k₂) = false := by simpa using hp
      simp only [hpb, Bool.false_eq_true, if_false]
      cases hpk : (p.1 == k)
      · exact ih
      · rfl

/-- Looking up a key other than the one written is unchanged. -/
theorem getKey?_setKey_of_ne {V : Type} (m : JsRecord V) (k k₂ : String) (v₂ : V)
    (hne : k ≠ k₂) : getKey? (setKey m k₂ v₂) k = getKey? m k := by
  have hne' : (k₂ == k) = false := beq_eq_false_iff_ne.mpr (Ne.symm hne)
  unfold setKey
  cases hm : m.any (fun q => q.1 == k₂)
  · show getKey? (m ++ [(k₂, v₂)]) k = getKey? m k
    unfold getKey?
    rw [List.find?_append]
    have hlast : List.find? (fun q : String × V => q.1 == k) [(k₂, v₂)] = none := by
      simp [List.find?_cons, hne']
    rw [hlast, Option.or_none]
  · show getKey? (m.map fun q => if q.1 == k₂ then (k₂, v₂) else q) k = getKey? m k
    unfold getKey?
    rw [find?_map_updateKey m k k₂ v₂ hne']

/-! ### Validation lemmas (claims C4, C5) -/

/-- The validation loop never removes an error entry: an entry present
in the accumulator survives the rest of the walk as long as no later
field shares its key. -/
theorem mem_validateFold (formData : JsRecord String) (fileData : JsRecord (List String))
    (fields : List WebhookFormField) :
    ∀ (errs : JsRecord String) (k v : String), (k, v) ∈ errs →
      (∀ f ∈ fields, f.name ≠ k) →
      (k, v) ∈ fields.foldl (validateStep formData fileData) errs := by
  induction fields with
  | nil => intro errs k v hmem _; exact hmem
  | cons f rest ih =>
    intro errs k v hmem hk
    rw [List.foldl_cons]
    refine ih _ k v ?_ (fun g hg => hk g (List.mem_cons_of_mem f hg))
    unfold validateStep
    split
    · exact mem_setKey_of_ne f.name _ hmem (Ne.symm (hk f (List.mem_cons_self f rest)))
    · exact hmem

/-- `setKey` never produces the empty record: it either rewrites a
non-empty record in place or appends the new pair. -/
theorem setKey_ne_nil {V : Type} (m : JsRecord V) (k : String) (v : V) :
    setKey m k v ≠ [] := by
  unfold setKey
  cases hm : m.any (fun q => q.1 == k)
  · simp
  · cases m with
    | nil => simp at hm
    | cons p m => simp

/-- When no field of the schema is a failing required field, the
validation loop leaves the error map untouched. -/
theorem validateFold_id (formData : JsRecord String) (fileData : JsRecord (List String))
    (fields : List WebhookFormField) :
    ∀ errs : JsRecord String,
      (∀ f ∈ fields, (f.required && fieldFails f formData fileData) = false) →
      fields.foldl (validateStep formData fileData) errs = errs := by
  induction fields with
  | nil => intro errs _; rfl
  | cons f rest ih =>
    intro errs h
    rw [List.foldl_cons]
    have hstep : validateStep formData fileData errs f = errs := by
      unfold validateStep
      simp only [h f (List.mem_cons_self f rest), Bool.false_eq_true, if_false]
    rw [hstep]
    exact ih errs (fun g hg => h g (List.mem_cons_of_mem f hg))

/-- Conversely, an empty error map at the end of the loop forces an
empty accumulator and no failing required field: every entry in the map
comes from a failing required field. -/
theorem validateFold_eq_nil (formData : JsRecord String) (fileData : JsRecord (List String))
    (fields : List WebhookFormField) :
    ∀ errs : JsRecord String,
      fields.foldl (validateStep formData fileData) errs = [] →
      errs = [] ∧ ∀ f ∈ fields, (f.required && fieldFails f formData fileData) = false := by
  induction fields with
  | nil =>
    intro errs h
    exact ⟨h, fun f hf => absurd hf (List.not_mem_nil f)⟩
  | cons f rest ih =>
    intro errs h
    rw [List.foldl_cons] at h
    obtain ⟨hstep, hrest⟩ := ih _ h
    unfold validateStep at hstep
    split at hstep
    case isTrue hcc =>
      exact absurd hstep (setKey_ne_nil _ _ _)
    case isFalse hcc =>
      have hcond : (f.required && fieldFails f formData fileData) = false := by
        revert hcc
        cases f.required && fieldFails f formData fileData <;> simp
      refine ⟨hstep, ?_⟩
      intro g hg
      rcases List.mem_cons.mp hg with rfl | hg'
      · exact hcond
      · exact hrest g hg'

/-- The error map is empty exactly when no required field fails — in
particular, a form whose required fields are all populated validates
with an empty error map, for every schema and form state. -/
theorem validateForm_eq_nil_iff (formFields : List WebhookFormField)
    (formData : JsRecord String) (fileData : JsRecord (List String)) :
    validateForm formFields formData fileData = [] ↔
      ∀ field ∈ formFields, field.required = true →
        fieldFails field formData fileData = false := by
  constructor
  · intro h field hmem hreq
    have hf := (validateFold_eq_nil formData fileData formFields [] h).2 field hmem
    rw [hreq, Bool.true_and] at hf
    exact hf
  · intro h
    unfold validateForm
    apply validateFold_id
    intro f hf
    cases hreq : f.required
    · rw [Bool.false_and]
    · rw [Bool.true_and]
      exact h f hf hreq

/-- Every failing required field contributes its entry to the fold
(regardless of where in the schema it sits), provided field names are
unique — which the data model requires. -/
theorem mem_validateForm_fold (formData : JsRecord String) (fileData : JsRecord (List String))
    (fields : List WebhookFormField) :
    ∀ (errs : JsRecord String) (field : WebhookFormField), field ∈ fields →
      (fields.map (fun f => f.name)).Nodup →
      field.required = true → fieldFails field formData fileData = true →
      (field.name, field.label ++ " is required") ∈
        fields.foldl (validateStep formData fileData) errs := by
  induction fields with
  | nil => intro _ _ h; cases h
  | cons f rest ih =>
    intro errs field hmem hnd hreq hfail
    rcases List.mem_cons.mp hmem with rfl | hmem'
    · rw [List.foldl_cons]
      refine mem_validateFold formData fileData rest _ _ _ ?_ ?_
      · unfold validateStep
        rw [hreq, hfail]
        simpa using mem_setKey_self errs field.name (field.label ++ " is required")
      · intro g hg he
        exact (List.nodup_cons.mp hnd).1 (List.mem_map.mpr ⟨g, hg, he⟩)
    · rw [List.foldl_cons]
      exact ih _ field hmem' (List.nodup_cons.mp hnd).2 hreq hfail

/-- C4: the submission path is a function of the schema alone — once
validation passes, a schema with at least one file field always submits
through the multipart path with the files of all file fields aggregated
in order, and a schema with no file field always submits through the
JSON path, whatever files are currently selected. -/
theorem handleSubmit_path_static (formFields : List WebhookFormField)
    (formData : JsRecord String) (fileData : JsRecord (List String))
    (hvalid : validateForm formFields formData fileData = []) :
    (hasFileFields formFields = true →
      handleSubmit formFields formData fileData =
        .callWithFiles formData (collectAllFiles fileData)) ∧
    (hasFileFields formFields = false →
      handleSubmit formFields formData fileData = .callJson formData) := by
  constructor <;> intro h <;> simp [handleSubmit, hvalid, h]

/-- Witness for `handleSubmit_path_static`: a schema whose only field is
an optional file field uses the multipart path even with zero selected
files, and a file-free schema uses the JSON path. -/
theorem handleSubmit_path_static_witness :
    handleSubmit
        [{ name := "doc", label := "Document", type := FieldType.file, required := false }]
        [] [("doc", [])] =
      .callWithFiles [] [] ∧
    handleSubmit
        [{ name := "x", label := "X", type := FieldType.text, required := false }]
        [("x", "")] [] =
      .callJson [("x", "")] := by
  constructor
  · exact (handleSubmit_path_static
      [{ name := "doc", label := "Document", type := FieldType.file, required := false }]
      [] [("doc", [])] rfl).1 rfl
  · exact (handleSubmit_path_static
      [{ name := "x", label := "X", type := FieldType.text, required := false }]
      [("x", "")] [] rfl).2 rfl

/-- C5: validation walks the whole schema — every required field whose
value is missing/blank (or whose file list is missing/empty) gets the
entry `"<label> is required"` under its name; the error map is empty
exactly when no required field fails (so an all-populated form always
validates clean); and `handleSubmit` makes a network call exactly when
the error map is empty (one call then, none otherwise). -/
theorem validateForm_complete_and_gates (formFields : List WebhookFormField)
    (formData : JsRecord String) (fileData : JsRecord (List String))
    (hnames : (formFields.map (fun f => f.name)).Nodup) :
    (∀ field ∈ formFields, field.required = true →
      fieldFails field formData fileData = true →
      (field.name, field.label ++ " is required") ∈
        validateForm formFields formData fileData) ∧
    (validateForm formFields formData fileData = [] ↔
      ∀ field ∈ formFields, field.required = true →
        fieldFails field formData fileData = false) ∧
    networkCallCount (handleSubmit formFields formData fileData) =
      (if validateForm formFields formData fileData = [] then 1 else 0) := by
  refine ⟨?_, validateForm_eq_nil_iff formFields formData fileData, ?_⟩
  · intro field hmem hreq hfail
    exact mem_validateForm_fold formData fileData formFields [] field hmem hnames hreq hfail
  · by_cases he : validateForm formFields formData fileData = []
    · simp only [handleSubmit, he, List.isEmpty_nil, Bool.not_true, Bool.false_eq_true,
        if_false, if_pos]
      split <;> rfl
    · have hne : (validateForm formFields formData fileData).isEmpty = false := by
        rcases h : validateForm formFields formData fileData with _ | _
        · exact absurd h he
        · rfl
      simp [handleSubmit, hne, networkCallCount, he]

/-- Witness for `validateForm_complete_and_gates`: a required empty text
field yields its error entry and blocks the call; the filled form
validates to an empty error map (via the emptiness characterization) and
makes exactly one call. -/
theorem validateForm_complete_and_gates_witness :
    ("x", "X is required") ∈
      validateForm [{ name := "x", label := "X", type := FieldType.text, required := true }]
        [("x", "")] [] ∧
    networkCallCount
        (handleSubmit [{ name := "x", label := "X", type := FieldType.text, required := true }]
          [("x", "")] []) = 0 ∧
    validateForm [{ name := "x", label := "X", type := FieldType.text, required := true }]
        [("x", "5")] [] = [] ∧
    networkCallCount
        (handleSubmit [{ name := "x", label := "X", type := FieldType.text, required := true }]
          [("x", "5")] []) = 1 := by
  have h₁ := validateForm_complete_and_gates
    [{ name := "x", label := "X", type := FieldType.text, required := true }]
    [("x", "")] [] (by decide)
  have h₂ := validateForm_complete_and_gates
    [{ name := "x", label := "X", type := FieldType.text, required := true }]
    [("x", "5")] [] (by decide)
  refine ⟨?_, ?_, ?_, ?_⟩
  · exact h₁.1 _ (List.mem_cons_self _ _) rfl (by decide)
  · rw [h₁.2.2]
    decide
  · refine h₂.2.1.mpr ?_
    intro field hmem _hreq
    simp only [List.mem_cons, List.not_mem_nil, or_false] at hmem
    subst hmem
    decide
  · rw [h₂.2.2]
    decide

/-! ### Initialization lemmas (claim C6) -/

/-- The initialization loop never touches the error map. -/
theorem errors_resetFold (fields : List WebhookFormField) :
    ∀ st : FormState, (fields.foldl resetStep st).errors = st.errors := by
  induction fields with
  | nil => intro st; rfl
  | cons f rest ih =>
    intro st
    rw [List.foldl_cons, ih]
    unfold resetStep
    split <;> rfl

/-- The initialization loop leaves `formData` lookups of keys named by
no processed field unchanged. -/
theorem formData_resetFold_preserved (fields : List WebhookFormField) :
    ∀ (st : FormState) (k : String), (∀ g ∈ fields, g.name ≠ k) →
      getKey? (fields.foldl resetStep st).formData k = getKey? st.formData k := by
  induction fields with
  | nil => intro st k _; rfl
  | cons f rest ih =>
    intro st k hk
    rw [List.foldl_cons, ih _ k (fun g hg => hk g (List.mem_cons_of_mem f hg))]
    unfold resetStep
    split
    · rfl
    · exact getKey?_setKey_of_ne st.formData k f.name _
        (Ne.symm (hk f (List.mem_cons_self f rest)))

/-- The initialization loop leaves `fileData` lookups of keys named by
no processed field unchanged. -/
theorem fileData_resetFold_preserved (fields : List WebhookFormField) :
    ∀ (st : FormState) (k : String), (∀ g ∈ fields, g.name ≠ k) →
      getKey? (fields.foldl resetStep st).fileData k = getKey? st.fileData k := by
  induction fields with
  | nil => intro st k _; rfl
  | cons f rest ih =>
    intro st k hk
    rw [List.foldl_cons, ih _ k (fun g hg => hk g (List.mem_cons_of_mem f hg))]
    unfold resetStep
    split
    · exact getKey?_setKey_of_ne st.fileData k f.name _
        (Ne.symm (hk f (List.mem_cons_self f rest)))
    · rfl

/-- After the loop, a non-file field's value is its default (or `""`),
given unique field names. -/
theorem formData_resetFold_set (fields : List WebhookFormField) :
    ∀ (st : FormState) (field : WebhookFormField), field ∈ fields →
      (fields.map (fun f => f.name)).Nodup → (field.type == FieldType.file) = false →
      getKey? (fields.foldl resetStep st).formData field.name =
        some (field.default.getD "") := by
  induction fields with
  | nil => intro _ _ h; cases h
  | cons f rest ih =>
    intro st field hmem hnd hfile
    rcases List.mem_cons.mp hmem with rfl | hmem'
    · rw [List.foldl_cons,
        formData_resetFold_preserved rest _ field.name
          (fun g hg he => (List.nodup_cons.mp hnd).1 (List.mem_map.mpr ⟨g, hg, he⟩))]
      unfold resetStep
      rw [hfile]
      exact getKey?_setKey_self st.formData field.name _
    · rw [List.foldl_cons]
      exact ih _ field hmem' (List.nodup_cons.mp hnd).2 hfile

/-- After the loop, a file field's file list is empty, given unique
field names. -/
theorem fileData_resetFold_set (fields : List WebhookFormField) :
    ∀ (st : FormState) (field : WebhookFormField), field ∈ fields →
      (fields.map (fun f => f.name)).Nodup → (field.type == FieldType.file) = true →
      getKey? (fields.foldl resetStep st).fileData field.name = some [] := by
  induction fields with
  | nil => intro _ _ h; cases h
  | cons f rest ih =>
    intro st field hmem hnd hfile
    rcases List.mem_cons.mp hmem with rfl | hmem'
    · rw [List.foldl_cons,
        fileData_resetFold_preserved rest _ field.name
          (fun g hg he => (List.nodup_cons.mp hnd).1 (List.mem_map.mpr ⟨g, hg, he⟩))]
      unfold resetStep
      rw [hfile]
      exact getKey?_setKey_self st.fileData field.name _
    · rw [List.foldl_cons]
      exact ih _ field hmem' (List.nodup_cons.mp hnd).2 hfile

/-- C6: whenever the modal becomes visible with a field schema the state
is rebuilt from scratch: the error map is cleared, every non-file field
is seeded from its default (or `""`), every file field is seeded with an
empty file list — and the result does not depend on the prior state at
all, so re-opening with the same schema is idempotent. -/
theorem resetOnShow_resets (prior : FormState) (formFields : List WebhookFormField)
    (hnames : (formFields.map (fun f => f.name)).Nodup) :
    (resetOnShow prior formFields).errors = [] ∧
    (∀ field ∈ formFields, (field.type == FieldType.file) = false →
      getKey? (resetOnShow prior formFields).formData field.name =
        some (field.default.getD "")) ∧
    (∀ field ∈ formFields, (field.type == FieldType.file) = true →
      getKey? (resetOnShow prior formFields).fileData field.name = some []) ∧
    ∀ prior₂ : FormState, resetOnShow prior formFields = resetOnShow prior₂ formFields := by
  refine ⟨errors_resetFold formFields _, ?_, ?_, fun _ => rfl⟩
  · intro field hmem hfile
    exact formData_resetFold_set formFields _ field hmem hnames hfile
  · intro field hmem hfile
    exact fileData_resetFold_set formFields _ field hmem hnames hfile

/-- Witness for `resetOnShow_resets`: re-opening over a dirty prior
state (stale value, selected file, pending error) resets both fields and
clears the errors. -/
theorem resetOnShow_resets_witness :
    (resetOnShow
        { formData := [("x", "stale")], fileData := [("doc", ["old.pdf"])],
          errors := [("x", "X is required")] }
        [{ name := "x", label := "X", type := FieldType.text, required := true,
           default := some "d" },
         { name := "doc", label := "Doc", type := FieldType.file, required := true }]).errors
      = [] ∧
    getKey?
        (resetOnShow
          { formData := [("x", "stale")], fileData := [("doc", ["old.pdf"])],
            errors := [("x", "X is required")] }
          [{ name := "x", label := "X", type := FieldType.text, required := true,
             default := some "d" },
           { name := "doc", label := "Doc", type := FieldType.file, required := true }]).formData
        "x" = some "d" ∧
    getKey?
        (resetOnShow
          { formData := [("x", "stale")], fileData := [("doc", ["old.pdf"])],
            errors := [("x", "X is required")] }
          [{ name := "x", label := "X", type := FieldType.text, required := true,
             default := some "d" },
           { name := "doc", label := "Doc", type := FieldType.file, required := true }]).fileData
        "doc" = some [] := by
  have h := resetOnShow_resets
    { formData := [("x", "stale")], fileData := [("doc", ["old.pdf"])],
      errors := [("x", "X is required")] }
    [{ name := "x", label := "X", type := FieldType.text, required := true,
       default := some "d" },
     { name := "doc", label := "Doc", type := FieldType.file, required := true }]
    (by decide)
  exact ⟨h.1, h.2.1 _ (List.mem_cons_self _ _) rfl,
    h.2.2.1 _ (List.mem_cons_of_mem _ (List.mem_cons_self _ _)) rfl⟩

/-! ### Table header lemmas (claim C7) -/

/-- `contains` is the decided membership test. -/
theorem contains_eq_decide_mem (acc : List String) (k : String) :
    acc.contains k = decide (k ∈ acc) :=
  List.elem_eq_mem k acc

/-- Adding a key already in the set is a no-op. -/
theorem addKey_of_mem (acc : List String) (k : String) (h : k ∈ acc) :
    addKey acc k = acc := by
  unfold addKey
  rw [contains_eq_decide_mem, decide_eq_true h]
  rfl

/-- Adding a fresh key appends it. -/
theorem addKey_of_not_mem (acc : List String) (k : String) (h : k ∉ acc) :
    addKey acc k = acc ++ [k] := by
  unfold addKey
  rw [contains_eq_decide_mem, decide_eq_false h]
  rfl

/-- Folding `addKey` over a duplicate-free key list appends exactly the
keys not yet present, in order. -/
theorem foldl_addKey_eq (ks : List String) :
    ∀ acc : List String, ks.Nodup →
      ks.foldl addKey acc = acc ++ ks.filter (fun k => !acc.contains k) := by
  induction ks with
  | nil => intro acc _; simp
  | cons k rest ih =>
    intro acc hnd
    rw [List.foldl_cons, List.filter_cons]
    by_cases hk : k ∈ acc
    · rw [addKey_of_mem acc k hk, ih acc (List.nodup_cons.mp hnd).2]
      rw [show (!acc.contains k) = false by
        rw [contains_eq_decide_mem, decide_eq_true hk]; rfl]
      simp
    · rw [addKey_of_not_mem acc k hk, ih (acc ++ [k]) (List.nodup_cons.mp hnd).2]
      rw [show (!acc.contains k) = true by
        rw [contains_eq_decide_mem, decide_eq_false hk]; rfl]
      have hfe : rest.filter (fun x => !(acc ++ [k]).contains x) =
          rest.filter (fun x => !acc.contains x) := by
        apply List.filter_congr
        intro x hx
        have hxk : ¬x = k := fun he => (List.nodup_cons.mp hnd).1 (he ▸ hx)
        rw [contains_eq_decide_mem, contains_eq_decide_mem]
        simp [List.mem_append, hxk]
      rw [hfe]
      simp

/-- The header fold agrees with the first-seen union row by row, when
every row's keys are duplicate-free (JavaScript object keys are). -/
theorem foldl_rows_eq (rows : List JsVal) :
    ∀ acc : List String, (∀ row ∈ rows, (objKeys row).Nodup) →
      rows.foldl (fun acc item => (objKeys item).foldl addKey acc) acc =
        (rows.map objKeys).foldl
          (fun acc ks => acc ++ ks.filter (fun k => !acc.contains k)) acc := by
  induction rows with
  | nil => intro acc _; rfl
  | cons r rest ih =>
    intro acc h
    rw [List.map_cons, List.foldl_cons, List.foldl_cons,
      foldl_addKey_eq (objKeys r) acc (h r (List.mem_cons_self r rest))]
    exact ih _ (fun row hr => h row (List.mem_cons_of_mem r hr))

/-- Membership after `addKey`. -/
theorem mem_addKey (acc : List String) (k x : String) :
    x ∈ addKey acc k ↔ x ∈ acc ∨ x = k := by
  by_cases hk : k ∈ acc
  · rw [addKey_of_mem acc k hk]
    constructor
    · exact Or.inl
    · rintro (h | rfl)
      · exact h
      · exact hk
  · rw [addKey_of_not_mem acc k hk]
    simp [List.mem_append]

/-- Membership after folding `addKey`. -/
theorem mem_foldl_addKey (ks : List String) :
    ∀ (acc : List String) (x : String),
      x ∈ ks.foldl addKey acc ↔ x ∈ acc ∨ x ∈ ks := by
  induction ks with
  | nil => intro acc x; simp
  | cons k rest ih =>
    intro acc x
    rw [List.foldl_cons, ih, mem_addKey]
    simp only [List.mem_cons]
    tauto

/-- Membership after folding all rows: a key is collected exactly when
some row has it. -/
theorem mem_foldl_rows (rows : List JsVal) :
    ∀ (acc : List String) (x : String),
      x ∈ rows.foldl (fun acc item => (objKeys item).foldl addKey acc) acc ↔
        x ∈ acc ∨ ∃ row ∈ rows, x ∈ objKeys row := by
  induction rows with
  | nil => intro acc x; simp
  | cons r rest ih =>
    intro acc x
    rw [List.foldl_cons, ih, mem_foldl_addKey]
    simp only [List.mem_cons]
    constructor
    · rintro ((h | h) | ⟨row, hrow, hx⟩)
      · exact Or.inl h
      · exact Or.inr ⟨r, Or.inl rfl, h⟩
      · exact Or.inr ⟨row, Or.inr hrow, hx⟩
    · rintro (h | ⟨row, hrow | hrow, hx⟩)
      · exact Or.inl (Or.inl h)
      · exact Or.inl (Or.inr (hrow ▸ hx))
      · exact Or.inr ⟨row, hrow, hx⟩

/-- `addKey` preserves distinctness. -/
theorem nodup_addKey (acc : List String) (k : String) (h : acc.Nodup) :
    (addKey acc k).Nodup := by
  by_cases hk : k ∈ acc
  · rw [addKey_of_mem acc k hk]
    exact h
  · rw [addKey_of_not_mem acc k hk]
    refine h.append (List.nodup_singleton k) ?_
    intro a ha hb
    rw [List.mem_singleton] at hb
    exact hk (hb ▸ ha)

/-- Folding `addKey` preserves distinctness. -/
theorem nodup_foldl_addKey (ks : List String) :
    ∀ acc : List String, acc.Nodup → (ks.foldl addKey acc).Nodup := by
  induction ks with
  | nil => intro acc h; exact h
  | cons k rest ih =>
    intro acc h
    rw [List.foldl_cons]
    exact ih _ (nodup_addKey acc k h)

/-- Folding all rows preserves distinctness. -/
theorem nodup_foldl_rows (rows : List JsVal) :
    ∀ acc : List String, acc.Nodup →
      (rows.foldl (fun acc item => (objKeys item).foldl addKey acc) acc).Nodup := by
  induction rows with
  | nil => intro acc h; exact h
  | cons r rest ih =>
    intro acc h
    rw [List.foldl_cons]
    exact ih _ (nodup_foldl_addKey (objKeys r) acc h)

/-- C7: for a table payload (every row an object with duplicate-free
keys), the rendered column set is exactly the union of all rows' keys in
first-seen order — equal to the spec-side `firstSeenUnion`, containing a
key iff some row has it, duplicate-free — and a cell whose row lacks the
column renders as the placeholder dash. -/
theorem getTableHeaders_spec (data : List JsVal)
    (hrows : ∀ row ∈ data, isObj row = true)
    (hkeys : ∀ row ∈ data, (objKeys row).Nodup) :
    getTableHeaders data = firstSeenUnion (data.map objKeys) ∧
    (∀ k, k ∈ getTableHeaders data ↔ ∃ row ∈ data, k ∈ objKeys row) ∧
    (getTableHeaders data).Nodup ∧
    (∀ row ∈ data, ∀ col, col ∉ objKeys row → formatValue (getField row col) = "-") := by
  refine ⟨?_, ?_, ?_, ?_⟩
  · unfold getTableHeaders firstSeenUnion
    cases data with
    | nil => rfl
    | cons r rest =>
      have hlen : ((r :: rest).length == 0) = false := by simp
      simp only [hlen, Bool.false_eq_true, if_false]
      exact foldl_rows_eq (r :: rest) [] hkeys
  · intro k
    unfold getTableHeaders
    cases data with
    | nil => simp
    | cons r rest =>
      have hlen : ((r :: rest).length == 0) = false := by simp
      simp only [hlen, Bool.false_eq_true, if_false]
      rw [mem_foldl_rows]
      simp
  · unfold getTableHeaders
    cases data with
    | nil => exact List.nodup_nil
    | cons r rest =>
      have hlen : ((r :: rest).length == 0) = false := by simp
      simp only [hlen, Bool.false_eq_true, if_false]
      exact nodup_foldl_rows (r :: rest) [] List.nodup_nil
  · intro row hrow col hcol
    cases row with
    | obj fields =>
      have hnone : fields.find? (fun p => p.1 == col) = none := by
        rw [List.find?_eq_none]
        intro x hx hxe
        have hx1 : x.1 = col := by simpa using hxe
        exact hcol (List.mem_map.mpr ⟨x, hx, hx1⟩)
      show formatValue (getField (.obj fields) col) = "-"
      simp only [getField, hnone]
      rfl
    | undefined => rfl
    | null => rfl
    | bool b => rfl
    | num n => rfl
    | str s => rfl
    | arr xs => rfl

/-- Witness for `getTableHeaders_spec` at the spec's heterogeneous
example `[{"a":1},{"b":2}]`: columns `["a","b"]`, and the missing cell
renders as the dash. -/
theorem getTableHeaders_spec_witness :
    getTableHeaders [.obj [("a", .num 1)], .obj [("b", .num 2)]] =
      firstSeenUnion [["a"], ["b"]] ∧
    firstSeenUnion [["a"], ["b"]] = ["a", "b"] ∧
    formatValue (getField (.obj [("a", .num 1)]) "b") = "-" := by
  have h := getTableHeaders_spec [.obj [("a", .num 1)], .obj [("b", .num 2)]]
    (by
      intro row hr
      simp only [List.mem_cons, List.not_mem_nil, or_false] at hr
      rcases hr with rfl | rfl <;> rfl)
    (by
      intro row hr
      simp only [List.mem_cons, List.not_mem_nil, or_false] at hr
      rcases hr with rfl | rfl <;> decide)
  refine ⟨h.1, rfl, ?_⟩
  exact h.2.2.2 (.obj [("a", .num 1)]) (List.mem_cons_self _ _) "b" (by decide)

/-! ### Slash palette cursor (claim C9) -/

/-- C9 (amended): when the cursor starts inside `[0, filteredCount-1]`,
the discrete up/down actions keep it inside that range; the cursor is
reset to 0 whenever the filter text changes to a non-empty string; a
change to the empty string leaves the cursor unchanged (the reactive
reset is guarded by the query's truthiness). -/
theorem paletteCursor_clamped (webhooks : List WebhookModel) (st : PaletteState) (q : String) :
    (0 ≤ st.selectedIdx →
      st.selectedIdx ≤ ((filteredItems webhooks st.query).length : Int) - 1 →
      (0 ≤ (paletteStep webhooks st .selectUp).selectedIdx ∧
       (paletteStep webhooks st .selectUp).selectedIdx ≤
         ((filteredItems webhooks st.query).length : Int) - 1 ∧
       0 ≤ (paletteStep webhooks st .selectDown).selectedIdx ∧
       (paletteStep webhooks st .selectDown).selectedIdx ≤
         ((filteredItems webhooks st.query).length : Int) - 1)) ∧
    (q ≠ "" → (paletteStep webhooks st (.setQuery q)).selectedIdx = 0) ∧
    (paletteStep webhooks st (.setQuery "")).selectedIdx = st.selectedIdx := by
  refine ⟨?_, ?_, rfl⟩
  · intro h0 h1
    simp only [paletteStep]
    refine ⟨?_, ?_, ?_, ?_⟩ <;> (simp only [max_def, min_def]; split <;> omega)
  · intro h
    have hb : (q == "") = false := beq_eq_false_iff_ne.mpr h
    simp [paletteStep, hb]

/-- Witness for `paletteCursor_clamped` over two concrete models with
filter `"a"` (both match, so the filtered count is 2) and cursor 1. -/
theorem paletteCursor_clamped_witness :
    (0 ≤ (paletteStep demoWebhooks { query := "a", selectedIdx := 1 } .selectUp).selectedIdx ∧
     (paletteStep demoWebhooks { query := "a", selectedIdx := 1 } .selectUp).selectedIdx ≤
       ((filteredItems demoWebhooks "a").length : Int) - 1 ∧
     0 ≤ (paletteStep demoWebhooks { query := "a", selectedIdx := 1 } .selectDown).selectedIdx ∧
     (paletteStep demoWebhooks { query := "a", selectedIdx := 1 } .selectDown).selectedIdx ≤
       ((filteredItems demoWebhooks "a").length : Int) - 1) ∧
    (paletteStep demoWebhooks { query := "a", selectedIdx := 1 }
      (.setQuery "al")).selectedIdx = 0 ∧
    (paletteStep demoWebhooks { query := "a", selectedIdx := 1 }
      (.setQuery "")).selectedIdx = 1 := by
  have h := paletteCursor_clamped demoWebhooks { query := "a", selectedIdx := 1 } "al"
  exact ⟨h.1 (by decide) (by decide), h.2.1 (by decide), h.2.2⟩

/-- C9 counterexample: start from mount, type `"a"`, move the cursor
down to 1, then clear the filter to `""` — the cursor stays at 1 instead
of being reset to 0, because `$: if (query) selectedIdx = 0` does not
fire for the empty (falsy) query. -/
theorem paletteCursor_no_reset_on_clear :
    (paletteRun demoWebhooks [.setQuery "a", .selectDown, .setQuery ""]).selectedIdx = 1 ∧
    ((1 : Int) ≠ 0) := by
  constructor
  · decide
  · decide

end Webhooks
